import Mathlib

/-!
Verification of the wollok-ts-cli interactive REPL and test-target resolver.

The development shallowly embeds the three source modules:

* `src/commands/repl/diagram.ts` (test-target resolution and the test runner):
  `sanitize`, `getTestFilter`, `getBaseNode`, `getTarget`, `validateParameters`
  and the default test-run entry point (`runTests` below).
* `src/commands/repl/repl.ts` (the interactive session): the multiline
  accumulator (`multilineHandler`), the `line`-event handler (`handleLine`),
  the reload protocol (`onReloadInterpreter`, `reload`), interpreter
  bootstrap (`initializeInterpreter`) and the meta-command table
  (`commandAction`).
* `src/commands/repl/autocomplete.ts`: `autocomplete`.

JavaScript string primitives are modelled over `List Char`:
`s.endsWith(c)` for a single character `c` is "the last character is `c`",
`s.startsWith(c)` is "the first character is `c`", `s.trim()` drops
whitespace from both ends, `s.includes(t)` is contiguous-subsequence
containment, and `s.replaceAll(c, emptyString)` is a character filter.
-/

/-! ## String helpers (JavaScript primitives) -/

/-- JavaScript `s.endsWith(c)` for a one-character suffix `c`. -/
def strEndsWith (s : String) (c : Char) : Bool :=
  s.toList.getLast? == some c

/-- JavaScript `s.startsWith(c)` for a one-character proper head `c`. -/
def strStartsWith (s : String) (c : Char) : Bool :=
  s.toList.head? == some c

/-- Contiguous-subsequence test on lists, mirroring JavaScript
`String.prototype.includes` on the underlying character sequence. -/
def containsSeq {α : Type} [BEq α] (needle : List α) : List α → Bool
  | [] => needle.isEmpty
  | a :: as => needle.isPrefixOf (a :: as) || containsSeq needle as

/-- JavaScript `s.includes(sub)`. -/
def strIncludes (s sub : String) : Bool :=
  containsSeq sub.toList s.toList

/-- JavaScript `s.startsWith(p)` for an arbitrary string `p`. -/
def strStartsWithStr (s p : String) : Bool :=
  p.toList.isPrefixOf s.toList

/-- JavaScript `s.trim()`: drop whitespace from both ends. -/
def strTrim (s : String) : String :=
  (((s.toList.dropWhile Char.isWhitespace).reverse.dropWhile Char.isWhitespace).reverse).asString

/-! ## Wollok node model

The resolver in `diagram.ts` consults only these features of wollok-ts
nodes: the node kind (`Package` / `Describe` / `Test` / other entities),
a package's `fileName`, a node's `name` (stored with surrounding double
quotes for describes and tests, as wollok-ts does), a test's
`fullyQualifiedName`, a test's `isOnly` mark, and the `descendants`
preorder traversal. -/

inductive WNode : Type where
  | pkg (fileName : String) (children : List WNode)
  | describe (name : String) (children : List WNode)
  | test (name : String) (fullyQualifiedName : String) (isOnly : Bool)
  | entity (name : String) (children : List WNode)

mutual

/-- Structural equality of nodes, standing in for the JavaScript identity
used by `targets.includes(node)` (every node in our model is a value). -/
def WNode.beq : WNode → WNode → Bool
  | .pkg f cs, .pkg g ds => f == g && beqList cs ds
  | .describe n cs, .describe m ds => n == m && beqList cs ds
  | .test n fqn o, .test m fqn2 o2 => n == m && fqn == fqn2 && o == o2
  | .entity n cs, .entity m ds => n == m && beqList cs ds
  | _, _ => false

/-- Structural equality of node lists. -/
def beqList : List WNode → List WNode → Bool
  | [], [] => true
  | a :: as, b :: bs => WNode.beq a b && beqList as bs
  | _, _ => false

end

instance : BEq WNode := ⟨WNode.beq⟩

mutual

/-- wollok-ts `Node#descendants`: all transitive children in preorder. -/
def WNode.descendants : WNode → List WNode
  | .pkg _ cs => descendantsList cs
  | .describe _ cs => descendantsList cs
  | .test _ _ _ => []
  | .entity _ cs => descendantsList cs

/-- Preorder traversal of a forest of nodes. -/
def descendantsList : List WNode → List WNode
  | [] => []
  | c :: cs => c :: (WNode.descendants c ++ descendantsList cs)

end

/-- wollok-ts `node.is(Test)`. -/
def WNode.isTest : WNode → Bool
  | .test _ _ _ => true
  | _ => false

/-- wollok-ts `node.is(Package)`. -/
def WNode.isPkg : WNode → Bool
  | .pkg _ _ => true
  | _ => false

/-- wollok-ts `node.is(Describe)`. -/
def WNode.isDescribe : WNode → Bool
  | .describe _ _ => true
  | _ => false

/-- The stored name of a node (quotes included for describes and tests). -/
def WNode.name : WNode → String
  | .pkg _ _ => ""
  | .describe n _ => n
  | .test n _ _ => n
  | .entity n _ => n

/-- A package's source file name (empty for non-packages). -/
def WNode.fileName : WNode → String
  | .pkg f _ => f
  | _ => ""

/-- A test's fully qualified name (empty for non-tests). -/
def WNode.fullyQualifiedName : WNode → String
  | .test _ fqn _ => fqn
  | _ => ""

/-- A test's `only` mark (false for non-tests). -/
def WNode.isOnly : WNode → Bool
  | .test _ _ o => o
  | _ => false

/-! ## Test-target resolver (`diagram.ts`) -/

/-- The `Options` record consumed by the test command (selection part). -/
structure TestOptions : Type where
  file : Option String
  describe : Option String
  test : Option String
deriving DecidableEq, Repr

/-- `validateParameters`: the free-text filter is mutually exclusive with
file / describe / test selection. -/
def validateParameters (filter : Option String) (o : TestOptions) : Except String Unit :=
  if filter.isSome && (o.file.isSome || o.describe.isSome || o.test.isSome) then
    .error "You should either use filter by full name or file describe test."
  else
    .ok ()

/-- `sanitize` on a plain string: `value.replaceAll(doubleQuote, empty)`. -/
def sanitizeStr (s : String) : String :=
  (s.toList.filter (fun c => c != '"')).asString

/-- `sanitize(value?: string)`: strip double quotes, propagating `undefined`. -/
def sanitize : Option String → Option String :=
  Option.map sanitizeStr

/-- `getTestFilter`: with a free-text filter or no test-name selection keep
every test; otherwise keep tests whose stored name is the quoted test name. -/
def getTestFilter (filter : Option String) (options : TestOptions) (node : WNode) : Bool :=
  match filter, options.test with
  | some _, _ => node.isTest
  | none, none => node.isTest
  | none, some t => node.isTest && (node.name == "\"" ++ t ++ "\"")

/-- `getBaseNode`: narrow the environment by file and then by describe;
a miss raises `TestSearchMissError`, modelled as `Except.error`. -/
def getBaseNode (environment : WNode) (filter : Option String) (options : TestOptions) :
    Except String WNode :=
  match filter with
  | some _ => .ok environment
  | none =>
    let afterFile : Except String WNode :=
      match options.file with
      | none => .ok environment
      | some f =>
        match environment.descendants.find? (fun n => n.isPkg && n.fileName == f) with
        | some n => .ok n
        | none => .error ("File " ++ f ++ " not found")
    match afterFile with
    | .error e => .error e
    | .ok nodeToFilter =>
      match options.describe with
      | none => .ok nodeToFilter
      | some d =>
        match nodeToFilter.descendants.find?
            (fun n => n.isDescribe && (n.name == "\"" ++ d ++ "\"")) with
        | some n => .ok n
        | none => .error ("Describe " ++ d ++ " not found")

/-- The `testMatches` closure inside `getTarget`: an empty (falsy) filter
keeps everything, otherwise the sanitized fully-qualified name must
contain the filter. -/
def testMatches (filterTest : String) (t : WNode) : Bool :=
  (filterTest == "") || strIncludes (sanitizeStr t.fullyQualifiedName) filterTest

/-- `getTarget`: returns the emitted miss reports (first component) and the
resolved tests (second component). A `TestSearchMissError` from
`getBaseNode` is caught, logged and turned into an empty result. -/
def getTarget (environment : WNode) (filter : Option String) (options : TestOptions) :
    List String × List WNode :=
  match getBaseNode environment filter options with
  | .error msg => ([msg], [])
  | .ok base =>
    let possibleTargets := base.descendants.filter (getTestFilter filter options)
    let onlyTarget := possibleTargets.find? (fun t => t.isOnly)
    let filterTest := (sanitize filter).getD ""
    match onlyTarget with
    | some t => ([], [t])
    | none => ([], possibleTargets.filter (testMatches filterTest))

/-- Summary of one run of the default test command. `exitCode = none` means
the process was not asked to exit explicitly (normal completion). -/
structure RunResult : Type where
  reports : List String
  successes : Nat
  failures : Nat
  exitCode : Option Nat
deriving DecidableEq, Repr

/-- The default test-run entry point of `diagram.ts`: validate, resolve
targets, execute each targeted test (success decided by the interpreter
oracle `execOk`), and exit with code 2 iff some test failed; a
validation error lands in the outer catch, which exits with code 1. -/
def runTests (environment : WNode) (filter : Option String) (options : TestOptions)
    (execOk : WNode → Bool) : RunResult :=
  match validateParameters filter options with
  | .error msg => ⟨[msg], 0, 0, some 1⟩
  | .ok _ =>
    let resolved := getTarget environment filter options
    let targets := resolved.2
    let executed := environment.descendants.filter (fun n => n.isTest && targets.contains n)
    let successes := (executed.filter execOk).length
    let failures := (executed.filter (fun t => !execOk t)).length
    ⟨resolved.1, successes, failures, if failures != 0 then some 2 else none⟩

/-! ## Multiline accumulator (`repl.ts`)

`multilineState` in `repl.ts` holds the pending lines and a stack of open
brackets; `multilineHandler` pushes the line, pushes an opening brace if
the line ends with one, pops on a closing brace (a pop on the empty stack
is a no-op, as in JavaScript), and returns the accumulated lines iff the
stack is empty. The `line` handler then joins the returned lines with a
newline and resets both fields. -/

/-- `multilineState`: pending raw lines plus the bracket stack. -/
structure MultilineState : Type where
  history : List String
  brackets : List Char
deriving DecidableEq, Repr

/-- `multilineState.finished()`: no open bracket. -/
def MultilineState.finished (s : MultilineState) : Bool :=
  s.brackets.isEmpty

/-- The bracket-stack update of `multilineHandler`: push on a trailing
opener, pop (JavaScript `Array.prototype.pop`, a no-op when empty) on a
trailing closer. -/
def pushBrackets (brackets : List Char) (line : String) : List Char :=
  let b := if strEndsWith line '\x7b' then brackets ++ ['\x7b'] else brackets
  if strEndsWith line '\x7d' then b.dropLast else b

/-- `multilineHandler`: append the line, update the bracket stack, and
return the accumulated lines iff the state is finished. -/
def multilineHandler (s : MultilineState) (line : String) : MultilineState × List String :=
  let history := s.history ++ [line]
  let brackets := pushBrackets s.brackets line
  (⟨history, brackets⟩, if brackets.isEmpty then history else [])

/-- One accumulator step as seen by the `line` handler: when
`multilineHandler` returns a non-empty batch, the batch is joined with
newlines into a completed unit and both state fields are cleared. -/
def mlFeed (s : MultilineState) (line : String) : MultilineState × Option String :=
  let r := multilineHandler s line
  if r.2.isEmpty then (r.1, none)
  else (⟨[], []⟩, some (String.intercalate "\n" r.2))

/-- Feed a whole sequence of lines, collecting every emitted completed
unit in order. -/
def mlFeedAll (s : MultilineState) : List String → MultilineState × List String
  | [] => (s, [])
  | line :: rest =>
    match mlFeed s line with
    | (s2, none) => mlFeedAll s2 rest
    | (s2, some u) =>
      let r := mlFeedAll s2 rest
      (r.1, u :: r.2)

/-- The net-depth recurrence induced by one line: `+1` on a trailing
opener, `-1` (floored at zero) on a trailing closer. -/
def lineDepthStep (d : Nat) (line : String) : Nat :=
  let d1 := if strEndsWith line '\x7b' then d + 1 else d
  if strEndsWith line '\x7d' then d1 - 1 else d1

/-- Open depth after feeding `lines` into a fresh accumulator. -/
def depthAfter (lines : List String) : Nat :=
  lines.foldl lineDepthStep 0

/-! ## REPL session (`repl.ts`)

The `line` handler of `replFn`: trim, dispatch meta-commands, feed the
multiline accumulator when a block is open or opening, and otherwise
evaluate directly. Evaluation is abstracted by an oracle
`interprete : String -> Bool` telling whether the unit errored (the
printed description does not matter here); the dynamic-diagram client's
`onReload` push is the `notified` event. -/

/-- Observable effects of one `line` event. -/
inductive ReplEvent : Type where
  | command (line : String)
  | evaluated (unit : String) (errored : Bool)
  | notified
deriving DecidableEq, Repr

/-- Mutable session state owned by `replFn`: the accepted-unit history and
the multiline accumulator. -/
structure ReplState : Type where
  history : List String
  multilineState : MultilineState
deriving DecidableEq, Repr

/-- The `repl.on(line)` handler. On a completed unit (single-line or
multiline flush) it appends the unit to the history, evaluates it, and
notifies the dynamic-diagram client, in that order. -/
def handleLine (interprete : String → Bool) (st : ReplState) (input : String) :
    ReplState × List ReplEvent :=
  let line := strTrim input
  let isMultiline := !st.multilineState.finished || strEndsWith line '\x7b'
  if line.length != 0 then
    if strStartsWith line ':' then
      (st, [.command line])
    else if isMultiline then
      let r := multilineHandler st.multilineState line
      if !r.2.isEmpty then
        let oneLine := String.intercalate "\n" r.2
        (⟨st.history ++ [oneLine], ⟨[], []⟩⟩,
          [.evaluated oneLine (interprete oneLine), .notified])
      else
        (⟨st.history, r.1⟩, [])
    else
      (⟨st.history ++ [line], st.multilineState⟩,
        [.evaluated line (interprete line), .notified])
  else
    (st, [])

/-! ## Reload protocol (`repl.ts`) -/

/-- Terminal interactions issued by the reload protocol: prompts and
resubmissions of a previous command through the line reader (and hence
through the command router). -/
inductive ReplOut : Type where
  | prompt
  | write (command : String)
deriving DecidableEq, Repr

/-- Session state around the interpreter swap: the active interpreter
(abstract) and the accepted history. -/
structure SessionState (I : Type) : Type where
  interpreter : I
  history : List String

/-- `onReloadInterpreter`: install the new interpreter, clear the history,
and when rerunning resubmit every previously recorded command through the
terminal (a prompt plus a write per command, in insertion order) before
the final prompt. -/
def onReloadInterpreter {I : Type} (newInterpreter : I) (rerun : Bool)
    (st : SessionState I) : SessionState I × List ReplOut :=
  let previousCommands := st.history
  let replay :=
    if rerun then previousCommands.flatMap (fun c => [ReplOut.prompt, ReplOut.write c])
    else []
  (⟨newInterpreter, []⟩, replay ++ [ReplOut.prompt])

/-- The commands resubmitted through the router among the terminal
interactions. -/
def writesOf (outs : List ReplOut) : List String :=
  outs.filterMap (fun o => match o with | .write c => some c | .prompt => none)

/-! ## Interpreter bootstrap and meta-commands (`repl.ts`) -/

/-- Outcome of `environment.getNodeOrUndefinedByFQN` on the auto-import
target combined with the `entity.is(Package)` check. -/
inductive EntityLookup : Type where
  | missing
  | nonPackage
  | package
deriving DecidableEq, Repr

/-- `initializeInterpreter`: building or validating the environment can
fail (exit code 12); an auto-import path naming a missing entity or a
non-package entity exits with code 11; otherwise the interpreter (here
identified with its environment) is produced. `build` abstracts
`buildEnvironmentForProject` + `validateEnvironment`; `lookup` abstracts
the FQN lookup. -/
def initializeInterpreter {E : Type} (autoImportPath : Option String)
    (build : Except Unit E) (lookup : E → String → EntityLookup) : Except Nat E :=
  match build with
  | .error _ => .error 12
  | .ok environment =>
    match autoImportPath with
    | none => .ok environment
    | some path =>
      match lookup environment path with
      | .package => .ok environment
      | .nonPackage => .error 11
      | .missing => .error 11

/-- `reload`: rebuild the interpreter and hand it to `onReloadInterpreter`;
a failed rebuild is fatal (the exit code of `initializeInterpreter`). -/
def reload {I : Type} (build : Except Nat I) (rerun : Bool) (st : SessionState I) :
    Except Nat (SessionState I × List ReplOut) :=
  match build with
  | .error code => .error code
  | .ok newInterpreter => .ok (onReloadInterpreter newInterpreter rerun st)

/-- The registered meta-command actions of `defineCommands`, keyed by the
command word (first whitespace token) with its aliases. -/
inductive CommandAction : Type where
  | exitWith (code : Nat)
  | reloadEnv (rerun : Bool)
  | diagram
  | help
deriving DecidableEq, Repr

/-- Command dispatch: `:quit`/`:q`/`:exit` exit with code 0, `:reload`/`:r`
reload without replay, `:rerun`/`:rr` reload with replay, `:diagram`/`:d`
open the dynamic diagram, `:help`/`:h` print help; anything else falls
through to the router help. -/
def commandAction (cmd : String) : Option CommandAction :=
  if cmd == ":quit" || cmd == ":q" || cmd == ":exit" then some (.exitWith 0)
  else if cmd == ":reload" || cmd == ":r" then some (.reloadEnv false)
  else if cmd == ":rerun" || cmd == ":rr" then some (.reloadEnv true)
  else if cmd == ":diagram" || cmd == ":d" then some .diagram
  else if cmd == ":help" || cmd == ":h" then some .help
  else none

/-! ## Autocomplete (`autocomplete.ts`) -/

/-- The built-in class completions. -/
def classes : List String := ["new Date()", "new Dictionary()"]

/-- The built-in lambda completion. -/
def lambdas : List String := ["\x7b n => n > 0 \x7d"]

/-- The built-in library completions. -/
def libs : List String := ["console.println"]

/-- `autocomplete`: candidates are the wollok-ts keywords (abstract here)
followed by the built-in classes, lambdas and libs; the hits are the
candidates starting with the input, and when there is no hit every
candidate is offered; the input is returned unchanged. -/
def autocomplete (keywords : List String) (input : String) : List String × String :=
  let completions := keywords ++ classes ++ lambdas ++ libs
  let hits := completions.filter (fun c => strStartsWithStr c input)
  (if hits.length != 0 then hits else completions, input)

/-! ## Sample environments used by the concrete witnesses -/

/-- A test named `testSum` (stored name quoted, as wollok-ts does). -/
def testSumNode : WNode := .test "\"testSum\"" "f.\"testSum\"" false

/-- A test named `testSub`. -/
def testSubNode : WNode := .test "\"testSub\"" "f.\"testSub\"" false

/-- A test named `testSumNeg`. -/
def testSumNegNode : WNode := .test "\"testSumNeg\"" "f.\"testSumNeg\"" false

/-- A test named `testA`, individually marked `only`. -/
def testOnlyA : WNode := .test "\"testA\"" "f.\"testA\"" true

/-- A second test marked `only`. -/
def testOnlyB : WNode := .test "\"testB\"" "f.\"testB\"" true

/-- Environment with three plain tests in one file package. -/
def envFilterSample : WNode :=
  .entity "env" [.pkg "f.wlk" [testSumNode, testSubNode, testSumNegNode]]

/-- Environment whose first test is marked `only`. -/
def envOnlySample : WNode :=
  .entity "env" [.pkg "f.wlk" [testOnlyA, testSumNode, testSumNegNode]]

/-- Environment with two `only`-marked tests. -/
def envTwoOnly : WNode :=
  .entity "env" [.pkg "f.wlk" [testOnlyA, testOnlyB, testSumNode]]

/-! ## Resolver lemmas -/

/-- `find?` returns the head of the filtered list. -/
theorem find?_eq_head?_filter {α : Type} (p : α → Bool) (l : List α) :
    l.find? p = (l.filter p).head? := by
  induction l with
  | nil => rfl
  | cons a as ih =>
    rw [List.find?_cons, List.filter_cons]
    cases h : p a
    · exact ih
    · rfl

/-- The empty string is included in every string. -/
theorem strIncludes_empty (s : String) : strIncludes s "" = true := by
  show containsSeq [] s.toList = true
  cases s.toList <;> simp [containsSeq, List.isPrefixOf]

/-- The falsy-filter shortcut in `testMatches` coincides with plain
substring containment. -/
theorem testMatches_eq_strIncludes (ft : String) (t : WNode) :
    testMatches ft t = strIncludes (sanitizeStr t.fullyQualifiedName) ft := by
  unfold testMatches
  cases h : ft == ""
  · simp
  · have he : ft = "" := by simpa using h
    subst he
    simp [strIncludes_empty]

/-! ## Claims about the test-target resolver -/

/-- C1: for every environment and selection specification, if any candidate
test (a test of the base scope surviving the test-name filter) is
individually marked `only`, the resolver returns exactly one `only`-marked
candidate, whatever the free-text filter says about it or about the other
candidates. -/
theorem only_tag_short_circuit (environment : WNode) (filter : Option String)
    (options : TestOptions) (base : WNode)
    (hbase : getBaseNode environment filter options = .ok base)
    (honly : (base.descendants.filter (getTestFilter filter options)).any
      (fun t => t.isOnly) = true) :
    ∃ t ∈ base.descendants.filter (getTestFilter filter options),
      t.isOnly = true ∧ (getTarget environment filter options).2 = [t] := by
  have hex : ∃ t ∈ base.descendants.filter (getTestFilter filter options),
      t.isOnly = true := by simpa using List.any_eq_true.mp honly
  have hsome : ((base.descendants.filter (getTestFilter filter options)).find?
      (fun t => t.isOnly)).isSome := by
    rw [List.find?_isSome]
    simpa using hex
  obtain ⟨t, ht⟩ := Option.isSome_iff_exists.mp hsome
  refine ⟨t, List.mem_of_find?_eq_some ht, List.find?_some ht, ?_⟩
  unfold getTarget
  rw [hbase]
  simp only [ht]

/-- C1 witness: tests `testA (only)`, `testSum`, `testSumNeg` under one
scope, free-text filter `Sum` matching the latter two but not `testA`:
the resolver still returns the single `only`-marked test. -/
theorem only_tag_short_circuit_witness :
    ∃ t ∈ envOnlySample.descendants.filter (getTestFilter (some "Sum") ⟨none, none, none⟩),
      t.isOnly = true ∧ (getTarget envOnlySample (some "Sum") ⟨none, none, none⟩).2 = [t] :=
  only_tag_short_circuit envOnlySample (some "Sum") ⟨none, none, none⟩ envOnlySample rfl rfl

/-- C9: when two or more candidates are marked `only`, the resolver returns
exactly one test, namely the first `only`-marked candidate in declaration
(descendant-traversal) order, and reports nothing about the others. -/
theorem only_tag_first_in_order (environment : WNode) (filter : Option String)
    (options : TestOptions) (base : WNode)
    (hbase : getBaseNode environment filter options = .ok base)
    (h2 : 2 ≤ ((base.descendants.filter (getTestFilter filter options)).filter
      (fun t => t.isOnly)).length) :
    ∃ t, ((base.descendants.filter (getTestFilter filter options)).filter
        (fun t => t.isOnly)).head? = some t ∧
      getTarget environment filter options = ([], [t]) := by
  obtain ⟨t, ht⟩ : ∃ t, ((base.descendants.filter (getTestFilter filter options)).filter
      (fun t => t.isOnly)).head? = some t := by
    cases hh : ((base.descendants.filter (getTestFilter filter options)).filter
        (fun t => t.isOnly)).head? with
    | none =>
      rw [List.head?_eq_none_iff] at hh
      rw [hh] at h2
      simp at h2
    | some t => exact ⟨t, rfl⟩
  have hfind : (base.descendants.filter (getTestFilter filter options)).find?
      (fun t => t.isOnly) = some t := by
    rw [find?_eq_head?_filter]
    exact ht
  refine ⟨t, ht, ?_⟩
  unfold getTarget
  rw [hbase]
  simp only [hfind]

/-- C9 witness: two `only`-marked tests; the resolver returns the first of
them in declaration order. -/
theorem only_tag_first_in_order_witness :
    ∃ t, ((envTwoOnly.descendants.filter (getTestFilter none ⟨none, none, none⟩)).filter
        (fun t => t.isOnly)).head? = some t ∧
      getTarget envTwoOnly none ⟨none, none, none⟩ = ([], [t]) :=
  only_tag_first_in_order envTwoOnly none ⟨none, none, none⟩ envTwoOnly rfl (by decide)

/-- C7 (amended): with no `only`-marked candidate, the resolver keeps
exactly those tests whose fully-qualified name, double quotes stripped,
contains the quote-stripped filter as a (case-sensitive) substring, in
declaration order. -/
theorem free_text_filter_substring (environment : WNode) (f : String) (options : TestOptions)
    (hnoonly : (environment.descendants.filter (getTestFilter (some f) options)).any
      (fun t => t.isOnly) = false) :
    (getTarget environment (some f) options).2 =
      (environment.descendants.filter (getTestFilter (some f) options)).filter
        (fun t => strIncludes (sanitizeStr t.fullyQualifiedName) (sanitizeStr f)) := by
  have hnone : (environment.descendants.filter (getTestFilter (some f) options)).find?
      (fun t => t.isOnly) = none := by
    rw [List.find?_eq_none]
    intro x hx
    have := List.any_eq_false.mp hnoonly x hx
    simpa using this
  have hmatch : testMatches (sanitizeStr f) =
      fun t => strIncludes (sanitizeStr t.fullyQualifiedName) (sanitizeStr f) :=
    funext (fun t => testMatches_eq_strIncludes (sanitizeStr f) t)
  unfold getTarget
  simp only [getBaseNode, hnone, sanitize]
  show List.filter (testMatches (sanitizeStr f))
      (List.filter (getTestFilter (some f) options) environment.descendants) = _
  rw [hmatch]

/-- C7 counterexample: the claimed example is false because JavaScript
substring matching is case-sensitive. Filter `sum` over `testSum`,
`testSub`, `testSumNeg` returns the empty list, not
`[testSum, testSumNeg]`. -/
theorem free_text_filter_case_counterexample :
    (getTarget envFilterSample (some "sum") ⟨none, none, none⟩).2 = [] ∧
      testSumNode ∈ envFilterSample.descendants.filter
        (getTestFilter (some "sum") ⟨none, none, none⟩) ∧
      ([] : List WNode) ≠ [testSumNode, testSumNegNode] := by
  refine ⟨rfl, ?_, ?_⟩
  · show testSumNode ∈ [testSumNode, testSubNode, testSumNegNode]
    exact List.mem_cons_self _ _
  · intro h
    exact List.noConfusion h

/-- C7 witness: filter `Sum` (matching case) over `testSum`, `testSub`,
`testSumNeg` keeps exactly `testSum` and `testSumNeg`, in declaration
order. -/
theorem free_text_filter_substring_witness :
    (getTarget envFilterSample (some "Sum") ⟨none, none, none⟩).2 =
      [testSumNode, testSumNegNode] :=
  (free_text_filter_substring envFilterSample "Sum" ⟨none, none, none⟩ rfl).trans (by rfl)

/-- C4: a selection naming a missing file or missing describe makes
`getTarget` report the miss and return the empty test list instead of
throwing, and the surrounding run then executes zero tests, reports zero
passing and zero failing, and requests no process exit. -/
theorem selection_miss_nonfatal (environment : WNode) (filter : Option String)
    (options : TestOptions) (msg : String) (execOk : WNode → Bool)
    (hmiss : getBaseNode environment filter options = .error msg) :
    getTarget environment filter options = ([msg], []) ∧
      runTests environment filter options execOk = ⟨[msg], 0, 0, none⟩ := by
  have hfilter : filter = none := by
    cases filter with
    | none => rfl
    | some f => exact Except.noConfusion (hmiss.symm.trans rfl)
  subst hfilter
  have htarget : getTarget environment none options = ([msg], []) := by
    unfold getTarget
    rw [hmiss]
  refine ⟨htarget, ?_⟩
  unfold runTests
  have hvalid : validateParameters none options = .ok () := by
    simp [validateParameters]
  rw [hvalid, htarget]
  simp [List.contains]

/-- C4 witness: asking for file `g.wlk` in an environment whose only
package is `f.wlk` yields a reported miss, the empty selection, and a
zero-passing zero-failing non-exiting run. -/
theorem selection_miss_nonfatal_witness :
    getTarget envFilterSample none ⟨some "g.wlk", none, none⟩ = (["File g.wlk not found"], []) ∧
      runTests envFilterSample none ⟨some "g.wlk", none, none⟩ (fun _ => true) =
        ⟨["File g.wlk not found"], 0, 0, none⟩ :=
  selection_miss_nonfatal envFilterSample none ⟨some "g.wlk", none, none⟩
    "File g.wlk not found" (fun _ => true) rfl

/-! ### Accumulator lemmas -/

/-- The bracket stack tracks exactly the floored depth recurrence. -/
theorem length_pushBrackets (b : List Char) (line : String) :
    (pushBrackets b line).length = lineDepthStep b.length line := by
  unfold pushBrackets lineDepthStep
  cases strEndsWith line '\x7b' <;> cases strEndsWith line '\x7d' <;>
    simp [List.length_dropLast]

/-- Folded version of `length_pushBrackets`. -/
theorem length_foldl_pushBrackets (b : List Char) (lines : List String) :
    (lines.foldl pushBrackets b).length = lines.foldl lineDepthStep b.length := by
  induction lines generalizing b with
  | nil => rfl
  | cons l ls ih => rw [List.foldl_cons, List.foldl_cons, ih, length_pushBrackets]

/-- A run during which the bracket stack never empties performs no flush:
every line is accumulated and nothing is emitted. -/
theorem mlFeedAll_no_flush (lines : List String) (s : MultilineState)
    (h : ∀ p q, lines = p ++ q → p ≠ [] → p.foldl pushBrackets s.brackets ≠ []) :
    mlFeedAll s lines = (⟨s.history ++ lines, lines.foldl pushBrackets s.brackets⟩, []) := by
  induction lines generalizing s with
  | nil => simp [mlFeedAll]
  | cons l ls ih =>
    have hb : pushBrackets s.brackets l ≠ [] := by
      have := h [l] ls rfl (by simp)
      simpa using this
    have hfeed : mlFeed s l = (⟨s.history ++ [l], pushBrackets s.brackets l⟩, none) := by
      unfold mlFeed multilineHandler
      simp [List.isEmpty_iff, hb]
    have ihr := ih ⟨s.history ++ [l], pushBrackets s.brackets l⟩ (by
      intro p q hpq hp
      have := h (l :: p) q (by rw [hpq]; rfl) (by simp)
      simpa [List.foldl_cons] using this)
    simp only [mlFeedAll, hfeed, ihr]
    simp [List.foldl_cons, List.append_assoc]

/-- `mlFeedAll` distributes over appending line batches. -/
theorem mlFeedAll_append (s : MultilineState) (xs ys : List String) :
    mlFeedAll s (xs ++ ys) =
      ((mlFeedAll (mlFeedAll s xs).1 ys).1,
        (mlFeedAll s xs).2 ++ (mlFeedAll (mlFeedAll s xs).1 ys).2) := by
  induction xs generalizing s with
  | nil => simp [mlFeedAll]
  | cons x xs ih =>
    rw [List.cons_append]
    show mlFeedAll s (x :: (xs ++ ys)) = _
    rw [mlFeedAll, mlFeedAll]
    cases hf : mlFeed s x with
    | mk s2 o =>
      cases o with
      | none => simp only [ih]
      | some u => simp only [ih, List.cons_append]

/-- Helper: a prefix decomposition recovers the prefix via `take`. -/
theorem take_of_append {α : Type} (lines p q : List α) (h : lines = p ++ q) :
    lines.take p.length = p := by
  subst h
  simp

/-- C2: a balanced multi-line submission (positive depth strictly before
the last line, depth zero after it) makes the accumulator emit exactly
one completed unit, equal to the lines joined by newline, upon the last
line, leaving the pending buffer empty and the depth at zero; no proper
prefix of the submission emits anything. -/
theorem balanced_emits_once (lines : List String)
    (hne : lines ≠ [])
    (hmid : ∀ i, i < lines.length → 0 < i → depthAfter (lines.take i) ≠ 0)
    (hend : depthAfter lines = 0) :
    mlFeedAll ⟨[], []⟩ lines = (⟨[], []⟩, [String.intercalate "\n" lines]) ∧
      ∀ i, i < lines.length → (mlFeedAll ⟨[], []⟩ (lines.take i)).2 = [] := by
  have hprefix_no_flush : ∀ (p : List String), p.length < lines.length →
      lines.take p.length = p →
      mlFeedAll ⟨[], []⟩ p = (⟨[] ++ p, p.foldl pushBrackets []⟩, []) := by
    intro p hplen hptake
    apply mlFeedAll_no_flush
    intro r q hrq hr
    have hrlen2 : r.length ≤ p.length := by
      rw [hrq]
      simp
    have hrtake : lines.take r.length = r :=
      calc lines.take r.length
          = (lines.take p.length).take r.length := by
            rw [List.take_take, min_eq_left hrlen2]
        _ = p.take r.length := by rw [hptake]
        _ = r := take_of_append p r q hrq
    have hdep : depthAfter r ≠ 0 := by
      have hrlen : r.length < lines.length := lt_of_le_of_lt
        (by rw [hrq]; simp) hplen
      have hrpos : 0 < r.length := List.length_pos.mpr hr
      have := hmid r.length hrlen hrpos
      rw [hrtake] at this
      exact this
    intro hempty
    apply hdep
    have := length_foldl_pushBrackets [] r
    rw [hempty] at this
    simpa [depthAfter] using this.symm
  obtain ⟨I, a, hIa⟩ : ∃ I a, lines = I ++ [a] := by
    rcases List.eq_nil_or_concat lines with h | ⟨I, a, h⟩
    · exact absurd h hne
    · exact ⟨I, a, by simpa using h⟩
  have hIlen : I.length < lines.length := by
    rw [hIa]
    simp
  have hItake : lines.take I.length = I := take_of_append lines I [a] hIa
  have hrunI := hprefix_no_flush I hIlen hItake
  have hBlen : (I.foldl pushBrackets []).length = depthAfter I := by
    simpa [depthAfter] using length_foldl_pushBrackets [] I
  have hlast : lineDepthStep (depthAfter I) a = 0 := by
    have : depthAfter (I ++ [a]) = lineDepthStep (depthAfter I) a := by
      simp [depthAfter, List.foldl_append]
    rw [← this, ← hIa]
    exact hend
  have hBempty : pushBrackets (I.foldl pushBrackets []) a = [] := by
    have : (pushBrackets (I.foldl pushBrackets []) a).length = 0 := by
      rw [length_pushBrackets, hBlen]
      exact hlast
    exact List.eq_nil_of_length_eq_zero this
  have hfeedLast : mlFeed ⟨[] ++ I, I.foldl pushBrackets []⟩ a =
      (⟨[], []⟩, some (String.intercalate "\n" (I ++ [a]))) := by
    unfold mlFeed multilineHandler
    simp [hBempty]
  constructor
  · rw [hIa, mlFeedAll_append, hrunI]
    rw [show mlFeedAll (⟨[] ++ I, I.foldl pushBrackets []⟩ : MultilineState) [a] =
        (⟨[], []⟩, [String.intercalate "\n" (I ++ [a])]) by
      rw [mlFeedAll, hfeedLast]
      rfl]
    simp [hIa]
  · intro i hi
    have hitake : lines.take i = lines.take ((lines.take i).length) := by
      simp [List.length_take, min_eq_left (le_of_lt hi)]
    have hlen : (lines.take i).length < lines.length := by
      simpa [List.length_take, min_eq_left (le_of_lt hi)] using hi
    have := hprefix_no_flush (lines.take i) hlen hitake.symm
    rw [this]

/-- C2 witness: the two-line unit `object o {` / `}` is emitted as a single
newline-joined completed unit exactly at the second line, with the state
reset afterwards. -/
theorem balanced_emits_once_witness :
    mlFeedAll ⟨[], []⟩ ["object o \x7b", "\x7d"] =
        (⟨[], []⟩, [String.intercalate "\n" ["object o \x7b", "\x7d"]]) ∧
      ∀ i, i < (["object o \x7b", "\x7d"] : List String).length →
        (mlFeedAll ⟨[], []⟩ ((["object o \x7b", "\x7d"] : List String).take i)).2 = [] :=
  balanced_emits_once ["object o \x7b", "\x7d"] (by decide) (by decide) (by decide)

/-- C6: while the openers seen strictly outnumber the closers, the
accumulator emits no completed unit however many further lines arrive;
and the tracked depth can never go below zero, because popping the empty
bracket stack (a closer arriving at depth zero) leaves it empty. -/
theorem unbalanced_never_emits :
    (∀ (lines : List String),
      (∀ i, i ≤ lines.length → 0 < i → depthAfter (lines.take i) ≠ 0) →
      (mlFeedAll ⟨[], []⟩ lines).2 = []) ∧
    (∀ (s : MultilineState) (line : String), s.brackets = [] →
      strEndsWith line '\x7d' = true → strEndsWith line '\x7b' = false →
      ((multilineHandler s line).1).brackets = []) := by
  constructor
  · intro lines h
    have hrun := mlFeedAll_no_flush lines ⟨[], []⟩ (by
      intro p q hpq hp hempty
      have hlen : p.length ≤ lines.length := by
        rw [hpq]
        simp
      have hpos : 0 < p.length := List.length_pos.mpr hp
      have htake : lines.take p.length = p := take_of_append lines p q hpq
      have hdep := h p.length hlen hpos
      rw [htake] at hdep
      apply hdep
      have hl := length_foldl_pushBrackets [] p
      rw [hempty] at hl
      simpa [depthAfter] using hl.symm)
    rw [hrun]
  · intro s line hbr hcl hop
    unfold multilineHandler pushBrackets
    simp [hbr, hcl, hop]

/-- C6 witness: an opener followed by a neutral line emits nothing, and a
closer hitting an empty bracket stack leaves it empty. -/
theorem unbalanced_never_emits_witness :
    (mlFeedAll ⟨[], []⟩ ["object o \x7b", "x = 1"]).2 = [] ∧
      ((multilineHandler ⟨["foo"], []⟩ "\x7d").1).brackets = [] :=
  ⟨unbalanced_never_emits.1 ["object o \x7b", "x = 1"] (by decide),
    unbalanced_never_emits.2 ⟨["foo"], []⟩ "\x7d" rfl (by decide) (by decide)⟩

/-- C5: whenever the `line` handler produces a completed evaluation unit,
the unit text is appended to the session history regardless of whether
the evaluation errored, and the dynamic-diagram client is notified
exactly once, after the evaluation. -/
theorem evaluated_unit_recorded (interprete : String → Bool) (st : ReplState)
    (input u : String) (e : Bool)
    (h : ReplEvent.evaluated u e ∈ (handleLine interprete st input).2) :
    (handleLine interprete st input).1.history = st.history ++ [u] ∧
      (handleLine interprete st input).2 = [ReplEvent.evaluated u e, ReplEvent.notified] := by
  by_cases h1 : ((strTrim input).length != 0) = true
  · by_cases h2 : strStartsWith (strTrim input) ':' = true
    · simp [handleLine, h1, h2] at h
    · by_cases h3 : (!st.multilineState.finished || strEndsWith (strTrim input) '\x7b') = true
      · by_cases h4 : (!(multilineHandler st.multilineState (strTrim input)).2.isEmpty) = true
        · have heq : handleLine interprete st input =
              (⟨st.history ++ [String.intercalate "\n"
                  (multilineHandler st.multilineState (strTrim input)).2], ⟨[], []⟩⟩,
                [ReplEvent.evaluated (String.intercalate "\n"
                    (multilineHandler st.multilineState (strTrim input)).2)
                  (interprete (String.intercalate "\n"
                    (multilineHandler st.multilineState (strTrim input)).2)),
                  ReplEvent.notified]) := by
            simp [handleLine, h1, h2, h3, h4]
          rw [heq] at h ⊢
          rcases List.mem_cons.mp h with hm | hm
          · injection hm with hu he
            subst hu
            subst he
            exact ⟨rfl, rfl⟩
          · rcases List.mem_cons.mp hm with hm2 | hm2
            · exact absurd hm2 (by simp)
            · exact absurd hm2 (by simp)
        · simp [handleLine, h1, h2, h3, h4] at h
      · have heq : handleLine interprete st input =
            (⟨st.history ++ [strTrim input], st.multilineState⟩,
              [ReplEvent.evaluated (strTrim input) (interprete (strTrim input)),
                ReplEvent.notified]) := by
          simp [handleLine, h1, h2, h3]
        rw [heq] at h ⊢
        rcases List.mem_cons.mp h with hm | hm
        · injection hm with hu he
          subst hu
          subst he
          exact ⟨rfl, rfl⟩
        · rcases List.mem_cons.mp hm with hm2 | hm2
          · exact absurd hm2 (by simp)
          · exact absurd hm2 (by simp)
  · simp [handleLine, h1] at h

/-- C5 witness: a failed evaluation of `2 + 2` (interpreter oracle says
errored) still lands in the history, with a single notification after the
evaluation. -/
theorem evaluated_unit_recorded_witness :
    (handleLine (fun _ => true) ⟨[], ⟨[], []⟩⟩ "2 + 2").1.history = [] ++ ["2 + 2"] ∧
      (handleLine (fun _ => true) ⟨[], ⟨[], []⟩⟩ "2 + 2").2 =
        [ReplEvent.evaluated "2 + 2" true, ReplEvent.notified] :=
  evaluated_unit_recorded (fun _ => true) ⟨[], ⟨[], []⟩⟩ "2 + 2" "2 + 2" true (by decide)

/-- The replay block resubmits exactly the recorded history, in order. -/
theorem writesOf_replay (h : List String) :
    writesOf (h.flatMap (fun c => [ReplOut.prompt, ReplOut.write c])) = h := by
  induction h with
  | nil => rfl
  | cons c cs ih =>
    rw [List.flatMap_cons]
    simp only [writesOf, List.filterMap_append] at ih ⊢
    rw [ih]
    rfl

/-- `writesOf` ignores a trailing prompt. -/
theorem writesOf_append_prompt (outs : List ReplOut) :
    writesOf (outs ++ [ReplOut.prompt]) = writesOf outs := by
  simp only [writesOf, List.filterMap_append]
  simp [List.filterMap]

/-- C3: the `:rerun` meta-command reloads with replay and `:reload`
without; after a reload-with-replay the new interpreter is installed, the
history is cleared, and every previously recorded unit is resubmitted
through the router, in insertion order, strictly before the final prompt;
a reload-without-replay resubmits nothing. -/
theorem rerun_replays_history {I : Type} (newInterpreter : I) (st : SessionState I) :
    commandAction ":rerun" = some (CommandAction.reloadEnv true) ∧
    commandAction ":reload" = some (CommandAction.reloadEnv false) ∧
    (∃ st2 outs, reload (Except.ok newInterpreter) true st = .ok (st2, outs) ∧
      st2.interpreter = newInterpreter ∧ st2.history = [] ∧
      writesOf outs = st.history ∧
      ∃ replay, outs = replay ++ [ReplOut.prompt] ∧ writesOf replay = st.history) ∧
    (∃ st2 outs, reload (Except.ok newInterpreter) false st = .ok (st2, outs) ∧
      st2.interpreter = newInterpreter ∧ st2.history = [] ∧ writesOf outs = []) := by
  refine ⟨rfl, rfl, ?_, ?_⟩
  · refine ⟨⟨newInterpreter, []⟩,
      (st.history.flatMap (fun c => [ReplOut.prompt, ReplOut.write c])) ++ [ReplOut.prompt],
      rfl, rfl, rfl, ?_,
      st.history.flatMap (fun c => [ReplOut.prompt, ReplOut.write c]), rfl,
      writesOf_replay st.history⟩
    rw [writesOf_append_prompt]
    exact writesOf_replay st.history
  · exact ⟨⟨newInterpreter, []⟩, [ReplOut.prompt], rfl, rfl, rfl, rfl⟩

/-- C8: `:quit` exits with code 0; a failed environment build exits with
code 12 whatever the auto-import request; an existing build with an
invalid auto-import target exits with code 11; a completed test run with
at least one failure exits with code 2; and the codes 0, 11, 12, 2 are
pairwise distinct (in particular every failure code is non-zero). -/
theorem exit_codes_distinct :
    commandAction ":quit" = some (CommandAction.exitWith 0) ∧
    (∀ (E : Type) (autoImportPath : Option String) (u : Unit)
        (lookup : E → String → EntityLookup),
      initializeInterpreter autoImportPath (Except.error u) lookup = .error 12) ∧
    (∀ (E : Type) (environment : E) (path : String)
        (lookup : E → String → EntityLookup),
      lookup environment path ≠ .package →
      initializeInterpreter (some path) (Except.ok environment) lookup = .error 11) ∧
    (∀ (environment : WNode) (filter : Option String) (options : TestOptions)
        (execOk : WNode → Bool),
      (runTests environment filter options execOk).failures ≠ 0 →
      (runTests environment filter options execOk).exitCode = some 2) ∧
    ([0, 11, 12, 2] : List Nat).Nodup := by
  refine ⟨rfl, fun E autoImportPath u lookup => rfl, ?_, ?_, by decide⟩
  · intro E environment path lookup hne
    cases hl : lookup environment path with
    | package => exact absurd hl hne
    | nonPackage => simp [initializeInterpreter, hl]
    | missing => simp [initializeInterpreter, hl]
  · intro environment filter options execOk hf
    cases hv : validateParameters filter options with
    | error msg =>
      unfold runTests at hf
      rw [hv] at hf
      exact absurd rfl hf
    | ok u =>
      unfold runTests at hf ⊢
      rw [hv] at hf ⊢
      dsimp only at hf ⊢
      rw [if_pos (by simpa using hf)]

/-- C8 witness: a missing auto-import target on a successfully built
environment exits with code 11, and a run in which every selected test
fails exits with code 2. -/
theorem exit_codes_distinct_witness :
    initializeInterpreter (some "missing.wlk") (Except.ok envFilterSample)
        (fun _ _ => EntityLookup.missing) = .error 11 ∧
      (runTests envFilterSample none ⟨none, none, none⟩ (fun _ => false)).exitCode = some 2 :=
  ⟨exit_codes_distinct.2.2.1 WNode envFilterSample "missing.wlk"
      (fun _ _ => EntityLookup.missing) (by decide),
    exit_codes_distinct.2.2.2.1 envFilterSample none ⟨none, none, none⟩ (fun _ => false)
      (by decide)⟩

/-- C10: the autocomplete callback returns the input unchanged as its
second component; its first component is the list of built-in candidates
starting with the input, or the whole candidate list when no candidate
starts with the input. -/
theorem autocomplete_spec (keywords : List String) (input : String) :
    (autocomplete keywords input).2 = input ∧
    ((keywords ++ classes ++ lambdas ++ libs).any
        (fun c => strStartsWithStr c input) = true →
      (autocomplete keywords input).1 =
        (keywords ++ classes ++ lambdas ++ libs).filter
          (fun c => strStartsWithStr c input)) ∧
    ((keywords ++ classes ++ lambdas ++ libs).any
        (fun c => strStartsWithStr c input) = false →
      (autocomplete keywords input).1 = keywords ++ classes ++ lambdas ++ libs) := by
  refine ⟨rfl, ?_, ?_⟩
  · intro h
    have hne : (keywords ++ classes ++ lambdas ++ libs).filter
        (fun c => strStartsWithStr c input) ≠ [] := by
      intro hnil
      rw [List.filter_eq_nil_iff] at hnil
      obtain ⟨c, hc, hp⟩ := List.any_eq_true.mp h
      exact absurd hp (by simpa using hnil c hc)
    have hlen : (((keywords ++ classes ++ lambdas ++ libs).filter
        (fun c => strStartsWithStr c input)).length != 0) = true := by
      simpa [bne_iff_ne, List.length_eq_zero] using hne
    simp only [autocomplete]
    rw [if_pos hlen]
  · intro h
    have hnil : (keywords ++ classes ++ lambdas ++ libs).filter
        (fun c => strStartsWithStr c input) = [] := by
      rw [List.filter_eq_nil_iff]
      intro c hc
      simpa using List.any_eq_false.mp h c hc
    have hlen0 : (((keywords ++ classes ++ lambdas ++ libs).filter
        (fun c => strStartsWithStr c input)).length != 0) = false := by
      rw [hnil]
      rfl
    simp only [autocomplete]
    rw [if_neg (by rw [hlen0]; exact Bool.false_ne_true)]

/-- C10 witness: input `co` matches `const` and `console.println`, so
exactly the matching candidates are offered; input `zzz` matches nothing,
so the whole candidate list is offered; the input always comes back
unchanged. -/
theorem autocomplete_spec_witness :
    (autocomplete ["class", "const"] "co").2 = "co" ∧
      (autocomplete ["class", "const"] "co").1 =
        (["class", "const"] ++ classes ++ lambdas ++ libs).filter
          (fun c => strStartsWithStr c "co") ∧
      (autocomplete ["class", "const"] "zzz").1 =
        ["class", "const"] ++ classes ++ lambdas ++ libs :=
  ⟨(autocomplete_spec ["class", "const"] "co").1,
    (autocomplete_spec ["class", "const"] "co").2.1 (by decide),
    (autocomplete_spec ["class", "const"] "zzz").2.2 (by decide)⟩

/-- C3 witness: with two recorded units, `:rerun` resubmits exactly those
two units in order before the final prompt, and `:reload` resubmits
nothing; in both cases the history is cleared and the new interpreter
installed. -/
theorem rerun_replays_history_witness :
    commandAction ":rerun" = some (CommandAction.reloadEnv true) ∧
    commandAction ":reload" = some (CommandAction.reloadEnv false) ∧
    (∃ st2 outs, reload (Except.ok (1 : Nat)) true ⟨0, ["1 + 1", "2 + 2"]⟩ = .ok (st2, outs) ∧
      st2.interpreter = 1 ∧ st2.history = [] ∧
      writesOf outs = ["1 + 1", "2 + 2"] ∧
      ∃ replay, outs = replay ++ [ReplOut.prompt] ∧ writesOf replay = ["1 + 1", "2 + 2"]) ∧
    (∃ st2 outs, reload (Except.ok (1 : Nat)) false ⟨0, ["1 + 1", "2 + 2"]⟩ = .ok (st2, outs) ∧
      st2.interpreter = 1 ∧ st2.history = [] ∧ writesOf outs = []) :=
  rerun_replays_history (1 : Nat) ⟨0, ["1 + 1", "2 + 2"]⟩
